import Mathlib

set_option maxRecDepth 4000

/-!
Verification development for the RAEC real-time acoustic echo cancellation
core (files nlmf.rs, filter.rs, processing.rs).

Sample values (Rust f32) are modeled as exact rationals, so rounding of
floating-point arithmetic is not modeled; all the properties settled here
are about exact data flow, lengths, control flow, and gating, none of which
depend on rounding.  A second, NaN-aware value type FV is used for the
claims that are about NaN propagation and the NaN assert in nlmf.rs; FV
models finite values and NaN (infinities and overflow are not modeled, and
no settled claim depends on them).  A Rust panic (index out of bounds,
failed assert) is modeled as the value none of an Option-returning
function.
-/

namespace RAEC

/-! ## nlmf.rs -/

/-- nlmf.rs line 8: the fixed tap count of the adaptive filter. -/
def N_TAPS : ℕ := 1024

/-- nlmf.rs lines 11-15: the NLMF adaptive filter state.  In Rust the
weights field has type [f32; N_TAPS]; the length invariant is carried as a
hypothesis where a theorem needs it. -/
structure NLMF where
  weights : List ℚ
  mu : ℚ
  eps : ℚ
deriving DecidableEq

/-- nlmf.rs lines 19-26, NLMF::new.  The weights parameter has Rust type
[f32; N_TAPS]: a caller supplying a vector of any other length is rejected
(in Rust this is a compile-time type error), modeled as none.  The first
argument is ignored by the source (it is named with an underscore). -/
def NLMF.new (n : ℕ) (mu eps : ℚ) (weights : List ℚ) : Option NLMF :=
  if weights.length = N_TAPS then some ⟨weights, mu, eps⟩ else none

/-- The number of elements that take part in the chunks_exact(8) / f32x8
dot products of NLMF::adapt: eight times the number of complete 8-chunks
available on both sides. -/
def simdLen (m k : ℕ) : ℕ := 8 * min (m / 8) (k / 8)

/-- nlmf.rs lines 30-36 and 40-46: the SIMD dot product.  Only the first
simdLen elements of each list take part (chunks_exact drops the remainder);
the lane-wise summation order of f32x8 is irrelevant over ℚ. -/
def simdDot (a b : List ℚ) : ℚ :=
  ((List.zipWith (fun x y => x * y) a b).take (simdLen a.length b.length)).sum

/-- nlmf.rs line 47: the normalized step nu = mu / (eps + input . input). -/
def NLMF.stepSize (f : NLMF) (input : List ℚ) : ℚ :=
  f.mu / (f.eps + simdDot input input)

/-- nlmf.rs line 52: dw = nu * error * x for each input element x. -/
def dwList (nu err : ℚ) (input : List ℚ) : List ℚ :=
  input.map (fun x => nu * err * x)

/-- nlmf.rs lines 49-57: the running maximum of (dw * error).abs() over the
dw loop, starting from 0.0. -/
def noveltyFold (err : ℚ) (dws : List ℚ) : ℚ :=
  dws.foldl (fun acc dw => if |dw * err| > acc then |dw * err| else acc) 0

/-- nlmf.rs lines 28-65, NLMF::adapt over exact rationals.

The loop `for (i, x) in input.iter().enumerate() { ...; dws[i] = dw; }`
writes into the fixed array `dws: [f32; N_TAPS]`, so any input slice longer
than N_TAPS hits an index out of bounds at i = N_TAPS and panics: modeled
as none.  For shorter inputs the remaining dws entries keep their 0.0
initialization, and `weights.iter_mut().zip(dws.iter())` pairs the weights
with dws elementwise.  Over ℚ the NaN assert of lines 60-62 can never fire,
so the applied branch always returns normally (the NaN behavior is settled
over the FV model below).  Returns (updated filter, output, novelty). -/
def NLMF.adapt (f : NLMF) (input : List ℚ) (target novelty_threshold : ℚ) :
    Option (NLMF × ℚ × ℚ) :=
  if N_TAPS < input.length then none
  else
    let output := simdDot f.weights input
    let error := target - output
    let nu := f.stepSize input
    let dwsRaw := dwList nu error input
    let dws := dwsRaw ++ List.replicate (N_TAPS - input.length) 0
    let novelty := noveltyFold error dwsRaw
    if novelty < novelty_threshold then
      some (⟨List.zipWith (fun w dw => w + dw) f.weights dws, f.mu, f.eps⟩,
            output, novelty)
    else
      some (f, output, novelty)

/-! Spec-side formulations (used only on the claim side of theorems, never
by the embedded code): a plain dot product and novelty as a fold of max. -/

/-- Spec formulation: output = sum of weights[i] * input[i]. -/
def dotSpec (a b : List ℚ) : ℚ :=
  (List.zipWith (fun x y => x * y) a b).sum

/-- Spec formulation: novelty = max over i of |dw[i] * error|. -/
def noveltySpec (err : ℚ) (dws : List ℚ) : ℚ :=
  (dws.map (fun dw => |dw * err|)).foldl max 0

/-! ## A NaN-aware value model for the NaN claims about nlmf.rs -/

/-- A floating-point value: NaN, or a finite value modeled exactly as a
rational.  Infinities and overflow are not modeled. -/
inductive FV where
  | nan : FV
  | fin : ℚ → FV
deriving DecidableEq

def FV.isNaN : FV → Bool
  | .nan => true
  | .fin _ => false

def FV.add : FV → FV → FV
  | .fin a, .fin b => .fin (a + b)
  | _, _ => .nan

def FV.sub : FV → FV → FV
  | .fin a, .fin b => .fin (a - b)
  | _, _ => .nan

def FV.mul : FV → FV → FV
  | .fin a, .fin b => .fin (a * b)
  | _, _ => .nan

/-- Division: NaN operands propagate; a zero divisor yields NaN here (IEEE
produces an infinity when the dividend is nonzero; infinities are not
modeled and no settled claim exercises a zero divisor). -/
def FV.div : FV → FV → FV
  | .fin a, .fin b => if b = 0 then .nan else .fin (a / b)
  | _, _ => .nan

def FV.abs : FV → FV
  | .fin a => .fin |a|
  | .nan => .nan

/-- IEEE ordered comparison: any comparison with NaN is false. -/
def FV.lt : FV → FV → Bool
  | .fin a, .fin b => decide (a < b)
  | _, _ => false

namespace Fp

/-- nlmf.rs lines 11-15 over the NaN-aware value type. -/
structure NLMF where
  weights : List FV
  mu : FV
  eps : FV
deriving DecidableEq

/-- The chunks_exact(8) / f32x8 dot product over FV. -/
def simdDot (a b : List FV) : FV :=
  ((List.zipWith FV.mul a b).take (RAEC.simdLen a.length b.length)).foldl
    FV.add (FV.fin 0)

/-- nlmf.rs lines 28-65, NLMF::adapt over the NaN-aware value type.

As in the ℚ model, an input slice longer than N_TAPS panics (index out of
bounds on dws): none.  Comparisons follow IEEE semantics: `nov > novelty`
and `novelty < novelty_threshold` are false when either side is NaN, so a
NaN novelty candidate never replaces the running maximum.  In the applied
branch the source asserts `!(w.is_nan())` for every updated weight (lines
60-62); a NaN updated weight aborts the process: modeled as none.  The
skipped branch performs no such check. -/
def NLMF.adapt (f : NLMF) (input : List FV) (target novelty_threshold : FV) :
    Option (NLMF × FV × FV) :=
  if RAEC.N_TAPS < input.length then none
  else
    let output := simdDot f.weights input
    let error := FV.sub target output
    let nu := FV.div f.mu (FV.add f.eps (simdDot input input))
    let dwsRaw := input.map (fun x => FV.mul (FV.mul nu error) x)
    let dws := dwsRaw ++ List.replicate (RAEC.N_TAPS - input.length) (FV.fin 0)
    let novelty := dwsRaw.foldl
      (fun acc dw => if FV.lt acc (FV.abs (FV.mul dw error))
                     then FV.abs (FV.mul dw error) else acc) (FV.fin 0)
    if FV.lt novelty novelty_threshold then
      let updated := List.zipWith FV.add f.weights dws
      if updated.all (fun w => !w.isNaN) then
        some (⟨updated, f.mu, f.eps⟩, output, novelty)
      else none
    else
      some (f, output, novelty)

end Fp

/-! ## filter.rs -/

/-- filter.rs lines 42-52: the biquad filter state: two input and two
output history samples and five coefficients. -/
structure Filter where
  x_last1 : ℚ
  x_last2 : ℚ
  y_last1 : ℚ
  y_last2 : ℚ
  b0 : ℚ
  b1 : ℚ
  b2 : ℚ
  a1 : ℚ
  a2 : ℚ
deriving DecidableEq

/-- filter.rs lines 54-72, Filter::new: stores the coefficient tuple
produced by compute_parameters and zeroes the four history samples.
compute_parameters evaluates tan and sqrt over f32 (transcendental, not
exactly representable in ℚ), so the computed coefficient tuple is taken
here as the argument. -/
def Filter.new (c : ℚ × ℚ × ℚ × ℚ × ℚ) : Filter :=
  ⟨0, 0, 0, 0, c.1, c.2.1, c.2.2.1, c.2.2.2.1, c.2.2.2.2⟩

/-- filter.rs lines 74-87, Filter::tick: computes the biquad output from
the pre-call history, shifts the history registers, and returns the output
together with the post-call state. -/
def Filter.tick (f : Filter) (x : ℚ) : ℚ × Filter :=
  let y := f.b0 * x + f.b1 * f.x_last1 + f.b2 * f.x_last2
    - f.a1 * f.y_last1 - f.a2 * f.y_last2
  (y, { f with x_last2 := f.x_last1, y_last2 := f.y_last1,
               x_last1 := x, y_last1 := y })

/-- Iterated Filter::tick over an input sequence (state only). -/
def Filter.run (f : Filter) (xs : List ℚ) : Filter :=
  xs.foldl (fun g x => (g.tick x).2) f

/-! ## processing.rs: the two channel adapters

A ringbuf channel half is modeled as its current content (a List, oldest
first) together with its fixed capacity; push appends when there is room
and fails (is dropped) when full, pop takes the head and fails when empty.
Concurrent pushes or pops by the thread on the other end of a channel
during one callback are not modeled (each callback is specified against a
snapshot of the channel content). -/

/-- Rust data.iter().step_by(2): the elements at even indices. -/
def stepBy2 : List ℚ → List ℚ
  | [] => []
  | [x] => [x]
  | x :: _ :: rest => x :: stepBy2 rest

/-- processing.rs lines 36-48, Stereo2MonoCapture::callback on an input
block and the current output-channel content and capacity.  The source
pairs `data.iter().step_by(2)` with `data.iter().step_by(2).skip(1)`:
even-indexed samples zipped with even-indexed samples shifted by one step.
Each merged sample 0.5 * (l + r) is pushed; a failed push (full channel)
drops the sample and raises the overrun flag.  callback_and_unpark (lines
50-66) performs the same pairing and pushes.  Returns (new channel content,
overrun flag). -/
def Stereo2MonoCapture.callback (data : List ℚ) (buf : List ℚ) (cap : ℕ) :
    List ℚ × Bool :=
  ((stepBy2 data).zip ((stepBy2 data).drop 1)).foldl
    (fun st p =>
      if st.1.length < cap then (st.1 ++ [(1/2 : ℚ) * (p.1 + p.2)], st.2)
      else (st.1, true))
    (buf, false)

/-- processing.rs lines 83-114, the slot loop of Mono2StereoOutput::callback:
arguments are (remaining output slots, flag, last_sample, channel content,
underrun flag so far); result is (written slots, remaining channel content,
underrun flag).  On a flag=false slot the callback pops: on success the
popped sample is written and becomes last_sample, on failure (empty
channel) 0.0 is written, the underrun flag is raised, and last_sample is
left as it was; on a flag=true slot last_sample is written again. -/
def upmixGo : ℕ → Bool → ℚ → List ℚ → Bool → List ℚ × List ℚ × Bool
  | 0, _, _, q, fell => ([], q, fell)
  | n + 1, true, last, q, fell =>
    let r := upmixGo n false last q fell
    (last :: r.1, r.2)
  | n + 1, false, last, [], _ =>
    let r := upmixGo n true last [] true
    ((0 : ℚ) :: r.1, r.2)
  | n + 1, false, _, s :: q2, fell =>
    let r := upmixGo n true s q2 fell
    (s :: r.1, r.2)

/-- processing.rs lines 83-114, Mono2StereoOutput::callback for an output
block of n slots given the input-channel content q: flag starts false and
last_sample starts 0.0. -/
def Mono2StereoOutput.callback (n : ℕ) (q : List ℚ) : List ℚ × List ℚ × Bool :=
  upmixGo n false 0 q false

/-! ## processing.rs: the engine and its processing loop -/

/-- circular_queue push with the queue content held newest first: a full
queue evicts its oldest element.  (CircularQueue::iter yields newest
first, which is the order the processing loop collects into the filter
input window.) -/
def CircularQueue.push (cap : ℕ) (buf : List ℚ) (x : ℚ) : List ℚ :=
  if buf.length < cap then x :: buf else x :: buf.dropLast

/-- The state owned by AECFiltering (processing.rs lines 118-143): the
three channel contents with the output capacity, the adaptive filter, the
delay-line buffer (newest first) with its capacity, and the two biquads.
The telemetry channel and timestamps are not modeled (no settled claim
mentions them beyond the buffer policy). -/
structure AECState where
  mic : List ℚ
  capture : List ℚ
  output : List ℚ
  outCap : ℕ
  nlmf : NLMF
  filterBuf : List ℚ
  fbCap : ℕ
  lowpass : Filter
  highpass : Filter

/-- processing.rs lines 172-205, AECFiltering::new: draws 2048 initial
weights from a Normal(0, 0.5) distribution (the random draw is modeled as
the function noise), passes them to NLMF::new(2048, mu, 1.0, .), builds
the two biquads (coefficient tuples abstracted as in Filter.new), and
primes a capacity-2048 circular delay line with zeros.  The channels start
as given by the caller.  The NLMF::new call requires exactly N_TAPS
weights (its Rust parameter type is [f32; N_TAPS]), so the construction
fails for the 2048 drawn weights. -/
def AECFiltering.new (noise : ℕ → ℚ) (mu : ℚ) (outCap : ℕ)
    (lpc hpc : ℚ × ℚ × ℚ × ℚ × ℚ) : Option AECState :=
  let weights := (List.range 2048).map noise
  (NLMF.new 2048 mu 1 weights).map (fun f =>
    { mic := [], capture := [], output := [], outCap := outCap,
      nlmf := f, filterBuf := List.replicate 2048 0, fbCap := 2048,
      lowpass := Filter.new lpc, highpass := Filter.new hpc })

/-- processing.rs lines 257-295, the inner drain loop of
AECFiltering::process: while the two input channels are nonempty and the
output channel is not full, pop one mic and one reference sample, push the
reference sample into the delay line, adapt on the collected window with
novelty threshold 0.0025, band-filter the residual through the low-pass
then the high-pass biquad, and push it to the output channel (a failed
push drops the sample and breaks the loop).  An adapt panic propagates as
none.  The telemetry send (lines 271-288) does not touch the modeled
state and is omitted. -/
def drainLoop (s : AECState) : Option AECState :=
  match hm : s.mic, s.capture with
  | m :: micRest, c :: capRest =>
    if s.output.length < s.outCap then
      let fb := CircularQueue.push s.fbCap s.filterBuf c
      match s.nlmf.adapt fb m (1/400) with
      | none => none
      | some (f2, aecOut, _) =>
        let p1 := s.lowpass.tick (m - aecOut)
        let p2 := s.highpass.tick p1.1
        let s2 : AECState :=
          ⟨micRest, capRest, s.output, s.outCap, f2, fb, s.fbCap, p1.2, p2.2⟩
        if s2.output.length < s2.outCap then
          drainLoop { s2 with output := s2.output ++ [p2.1] }
        else some s2
    else some s
  | _, _ => some s
termination_by s.mic.length
decreasing_by simp [hm]

/-- processing.rs lines 290-295: the silence-fill pushes, one at a time; a
push on a full channel is dropped (the source ignores the push result). -/
def pushZeros : ℕ → List ℚ → ℕ → List ℚ
  | 0, out, _ => out
  | k + 1, out, cap => pushZeros k (if out.length < cap then out ++ [0] else out) cap

/-- processing.rs lines 296-301: after the drain loop, if the output
occupancy is below 20 percent of capacity, push capacity / 2 zero samples
and report that the inputs are too slow; returns (new output content,
reported flag).  The source computes `len as f32 / capacity as f32 < 0.2`;
here the quotient is exact and the threshold is exactly 1/5. -/
def outputFill (out : List ℚ) (cap : ℕ) : List ℚ × Bool :=
  if (out.length : ℚ) / (cap : ℚ) < 1/5 then (pushZeros (cap / 2) out cap, true)
  else (out, false)

/-- One full iteration of the outer processing loop after the kill-signal
check: drain, then the silence-fill policy.  Returns none when the drain
loop panics. -/
def processIteration (s : AECState) : Option (AECState × Bool) :=
  (drainLoop s).map (fun s2 =>
    let fill := outputFill s2.output s2.outCap
    ({ s2 with output := fill.1 }, fill.2))

/-! ## processing.rs: the scheduler control flow

The control skeleton of AECFiltering::process (lines 232-305) and of
std::thread parking, for the shutdown claim.  The processing thread sits
at the top of the outer loop (phase top), where it checks the kill channel
with try_recv: a received signal or a disconnected channel breaks the loop
(phase finished, the thread returns and join yields the engine).  With no
signal it runs one drain-and-fill iteration (with never any data enqueued
this touches no channel content except the silence fill, and it cannot
affect control flow) and then calls std::thread::park(): if an unpark
token is pending, park consumes it and returns (back to top), otherwise
the thread blocks (phase parked) until some thread unparks it.  Spurious
park wakeups, which Rust permits but forbids relying on, are not modeled. -/

inductive SchedPhase where
  | top : SchedPhase
  | parked : SchedPhase
  | finished : SchedPhase
deriving DecidableEq

structure SchedState where
  phase : SchedPhase
  killSent : Bool
  unpark : Bool
deriving DecidableEq

/-- One step of the processing thread (see the section comment above). -/
def schedStep (s : SchedState) : SchedState :=
  match s.phase with
  | .top =>
    if s.killSent then { s with phase := .finished }
    else if s.unpark then { s with unpark := false }
    else { s with phase := .parked }
  | .parked =>
    if s.unpark then { s with phase := .top, unpark := false } else s
  | .finished => s

/-- processing.rs lines 164-167, RunningAECFiltering::kill: sends the kill
signal and then joins.  It never unparks the processing thread (the thread
handle bound in RunningAECFiltering::new on line 151 is dropped unused),
so its only effect on the thread state is the pending signal. -/
def RunningAECFiltering.kill (s : SchedState) : SchedState :=
  { s with killSent := true }

/-! ## Helper lemmas -/

lemma zipWith_mul_replicate_zero (a : List ℚ) (n : ℕ) :
    List.zipWith (fun x y => x * y) a (List.replicate n (0 : ℚ)) =
      List.replicate (min a.length n) 0 := by
  induction a generalizing n with
  | nil => simp
  | cons x a ih =>
    cases n with
    | zero => simp
    | succ m => simp [List.replicate_succ, ih, Nat.succ_min_succ]

lemma sum_replicate_zero (n : ℕ) : (List.replicate n (0 : ℚ)).sum = 0 := by
  induction n with
  | zero => rfl
  | succ m ih => simp [List.replicate_succ, ih]

lemma simdDot_zero_right (a : List ℚ) (n : ℕ) :
    simdDot a (List.replicate n (0 : ℚ)) = 0 := by
  unfold simdDot
  rw [zipWith_mul_replicate_zero, List.take_replicate, sum_replicate_zero]

lemma zipWith_add_replicate_zero (w : List ℚ) (n : ℕ) (h : w.length ≤ n) :
    List.zipWith (fun a b => a + b) w (List.replicate n (0 : ℚ)) = w := by
  induction w generalizing n with
  | nil => simp
  | cons x w ih =>
    cases n with
    | zero => simp at h
    | succ m => simp [List.replicate_succ, ih m (by simpa using h)]

lemma noveltyFold_replicate_zero (err : ℚ) (n : ℕ) :
    noveltyFold err (List.replicate n (0 : ℚ)) = 0 := by
  unfold noveltyFold
  induction n with
  | zero => rfl
  | succ m ih =>
    rw [List.replicate_succ, List.foldl_cons]
    simpa using ih

lemma simdDot_eq_dotSpec (a b : List ℚ) (ha : a.length = N_TAPS)
    (hb : b.length = N_TAPS) : simdDot a b = dotSpec a b := by
  unfold simdDot dotSpec simdLen
  rw [ha, hb, List.take_of_length_le]
  simp [N_TAPS, ha, hb]

lemma noveltyFold_eq_noveltySpec (err : ℚ) (l : List ℚ) :
    noveltyFold err l = noveltySpec err l := by
  unfold noveltyFold noveltySpec
  rw [List.foldl_map]
  congr 1
  funext acc dw
  rcases lt_or_ge acc |dw * err| with h | h
  · rw [if_pos h, max_eq_right h.le]
  · rw [if_neg (not_lt.mpr h), max_eq_left h]

lemma dotSpec_zero_right (a : List ℚ) (n : ℕ) :
    dotSpec a (List.replicate n (0 : ℚ)) = 0 := by
  unfold dotSpec
  rw [zipWith_mul_replicate_zero, sum_replicate_zero]

lemma dwList_replicate_zero (nu err : ℚ) (n : ℕ) :
    dwList nu err (List.replicate n (0 : ℚ)) = List.replicate n 0 := by
  simp [dwList, List.map_replicate]

lemma noveltySpec_replicate_zero (err : ℚ) (n : ℕ) :
    noveltySpec err (List.replicate n (0 : ℚ)) = 0 := by
  rw [← noveltyFold_eq_noveltySpec, noveltyFold_replicate_zero]

lemma pushZeros_eq_append (k : ℕ) : ∀ (out : List ℚ) (cap : ℕ),
    out.length + k ≤ cap → pushZeros k out cap = out ++ List.replicate k 0 := by
  induction k with
  | zero => intro out cap _; simp [pushZeros]
  | succ m ih =>
    intro out cap h
    have hlt : out.length < cap := by omega
    rw [pushZeros, if_pos hlt, ih (out ++ [0]) cap (by simp; omega)]
    simp [List.replicate_succ, List.append_assoc]

lemma push_full_length (cap : ℕ) (buf : List ℚ) (x : ℚ) (h : buf.length = cap)
    (hpos : 0 < cap) : (CircularQueue.push cap buf x).length = cap := by
  unfold CircularQueue.push
  rw [if_neg (by omega)]
  simp only [List.length_cons, List.length_dropLast, h]
  omega

/-! ## Claim theorems -/

/-- C9: every Filter::tick(x) computes
y = b0*x + b1*x_last1 + b2*x_last2 - a1*y_last1 - a2*y_last2 from the
pre-call history, then shifts the history registers; the five coefficients
are never modified by any number of ticks; tick is total (no failure
modes). -/
theorem tick_spec (f : Filter) (x : ℚ) :
    (f.tick x).1 = f.b0 * x + f.b1 * f.x_last1 + f.b2 * f.x_last2
      - f.a1 * f.y_last1 - f.a2 * f.y_last2
    ∧ (f.tick x).2.x_last1 = x
    ∧ (f.tick x).2.x_last2 = f.x_last1
    ∧ (f.tick x).2.y_last1 = (f.tick x).1
    ∧ (f.tick x).2.y_last2 = f.y_last1
    ∧ ∀ xs : List ℚ, (Filter.run f xs).b0 = f.b0 ∧ (Filter.run f xs).b1 = f.b1
        ∧ (Filter.run f xs).b2 = f.b2 ∧ (Filter.run f xs).a1 = f.a1
        ∧ (Filter.run f xs).a2 = f.a2 := by
  refine ⟨rfl, rfl, rfl, rfl, rfl, ?_⟩
  intro xs
  induction xs generalizing f with
  | nil => exact ⟨rfl, rfl, rfl, rfl, rfl⟩
  | cons y ys ih => exact ih ((f.tick y).2)

/-- C2: the claim says the downmix callback pairs sample 2k with sample
2k+1 and pushes 0.5*(L+R), so that [1,3,5,7] yields [2,4].  The code zips
step_by(2) with step_by(2).skip(1), pairing each even-indexed sample with
the next even-indexed sample, so on [1,3,5,7] it pushes the single sample
0.5*(1+5) = 3, not [2,4]. -/
theorem downmix_pairs_even_with_even :
    Stereo2MonoCapture.callback [1, 3, 5, 7] [] 8 = ([3], false)
    ∧ ([3] : List ℚ) ≠ [2, 4] := by
  constructor
  · norm_num [Stereo2MonoCapture.callback, stepBy2]
  · decide

/-- C6: the claim says that after start() then stop() with no samples ever
enqueued, stop() returns: the thread observes the shutdown signal at the
top of its loop and terminates.  In the code the first loop iteration sees
no signal and parks; kill() then sends the signal but never unparks the
thread (and with no data no callback ever unparks it), so the thread stays
parked forever, never re-checks the signal, never reaches the finished
phase, and the join inside kill() blocks forever. -/
theorem kill_leaves_thread_parked :
    schedStep ⟨.top, false, false⟩ = ⟨.parked, false, false⟩
    ∧ RunningAECFiltering.kill ⟨.parked, false, false⟩ = ⟨.parked, true, false⟩
    ∧ ∀ n : ℕ, (schedStep^[n] ⟨.parked, true, false⟩).phase ≠ .finished := by
  refine ⟨rfl, rfl, ?_⟩
  intro n
  have h : schedStep ⟨.parked, true, false⟩ = ⟨.parked, true, false⟩ := rfl
  rw [Function.iterate_fixed h]
  decide

/-- C1: the claim says every constructed engine has as many adaptive-filter
weights as delay-line slots (2048 of each).  In the code NLMF is hard-coded
to N_TAPS = 1024 weights while AECFiltering::new builds a 2048-slot delay
line and passes 2048 freshly drawn weights to NLMF::new, whose parameter
type [f32; N_TAPS] requires exactly 1024: the construction is ill-formed
(modeled as none), and 1024 differs from 2048. -/
theorem engine_taps_mismatch :
    N_TAPS ≠ 2048
    ∧ ∀ (noise : ℕ → ℚ) (mu : ℚ) (outCap : ℕ) (lpc hpc : ℚ × ℚ × ℚ × ℚ × ℚ),
        AECFiltering.new noise mu outCap lpc hpc = none := by
  refine ⟨by decide, ?_⟩
  intro noise mu outCap lpc hpc
  simp only [AECFiltering.new, NLMF.new, List.length_map, List.length_range]
  norm_num [N_TAPS]

/-- C10: after the drain loop, if the output-channel occupancy is below 20
percent of capacity, the engine pushes capacity / 2 silence samples
(bringing it to roughly half-full, since it started below 20 percent) and
reports that the inputs are too slow; at or above 20 percent nothing is
pushed and nothing is reported. -/
theorem output_fill_spec (out : List ℚ) (cap : ℕ) (hcap : 0 < cap) :
    ((out.length : ℚ) / (cap : ℚ) < 1/5 →
      outputFill out cap = (out ++ List.replicate (cap / 2) 0, true))
    ∧ (¬ ((out.length : ℚ) / (cap : ℚ) < 1/5) →
      outputFill out cap = (out, false)) := by
  constructor
  · intro h
    have hc : (0 : ℚ) < (cap : ℚ) := by exact_mod_cast hcap
    have h2 := (div_lt_div_iff₀ hc (by norm_num : (0 : ℚ) < 5)).mp h
    have h5 : 5 * out.length < cap := by
      have h3 : ((5 * out.length : ℕ) : ℚ) < ((cap : ℕ) : ℚ) := by push_cast; linarith
      exact_mod_cast h3
    rw [outputFill, if_pos h, pushZeros_eq_append (cap / 2) out cap (by omega)]
  · intro h
    rw [outputFill, if_neg h]

/-- C10 witness: an empty output channel of capacity 4 is below 20 percent,
so the fill appends 4 / 2 = 2 silence samples and reports. -/
theorem output_fill_spec_witness :
    outputFill [] 4 = (([] : List ℚ) ++ List.replicate (4 / 2) 0, true) :=
  (output_fill_spec [] 4 (by norm_num)).1 (by norm_num)

/-- C7: adapting on an all-zero input window returns output 0 and novelty
0, uses normalized step mu / eps, and leaves the weight vector (and the
whole filter state) unchanged, for every target and every novelty
threshold.  Over the exact-rational model all weights are finite. -/
theorem adapt_zero_window (f : NLMF) (target novelty_threshold : ℚ)
    (hw : f.weights.length = N_TAPS) :
    f.stepSize (List.replicate N_TAPS 0) = f.mu / f.eps
    ∧ f.adapt (List.replicate N_TAPS 0) target novelty_threshold =
        some (f, 0, 0) := by
  constructor
  · unfold NLMF.stepSize
    rw [simdDot_zero_right, add_zero]
  · unfold NLMF.adapt
    rw [if_neg (by simp)]
    simp only [simdDot_zero_right, List.length_replicate, Nat.sub_self,
      List.replicate_zero, List.append_nil, dwList_replicate_zero,
      noveltyFold_replicate_zero]
    rw [zipWith_add_replicate_zero f.weights N_TAPS (le_of_eq hw)]
    split <;> rfl

/-- C7 witness: the zero-window property applied to a concrete filter. -/
theorem adapt_zero_window_witness :
    (⟨List.replicate N_TAPS 1, 2, 3⟩ : NLMF).stepSize (List.replicate N_TAPS 0)
      = 2 / 3
    ∧ (⟨List.replicate N_TAPS 1, 2, 3⟩ : NLMF).adapt (List.replicate N_TAPS 0) 5 7
      = some (⟨List.replicate N_TAPS 1, 2, 3⟩, 0, 0) :=
  adapt_zero_window ⟨List.replicate N_TAPS 1, 2, 3⟩ 5 7 (by simp)

/-- C5: on a window of the contractual length, adapt returns exactly the
pair (output, novelty) with output the plain dot product of weights and
window and novelty the maximum over taps of |dw[i] * error| for
dw[i] = step * error * input[i] and step = mu / (eps + energy); the update
weights[i] + dw[i] is applied to every tap exactly when
novelty < novelty_threshold, and the weights are left entirely unchanged
otherwise; mu and eps are never modified. -/
theorem adapt_gate_spec (f : NLMF) (input : List ℚ)
    (target novelty_threshold : ℚ) (hw : f.weights.length = N_TAPS)
    (hi : input.length = N_TAPS) :
    f.adapt input target novelty_threshold =
      some (⟨if noveltySpec (target - dotSpec f.weights input)
                (dwList (f.mu / (f.eps + dotSpec input input))
                  (target - dotSpec f.weights input) input) < novelty_threshold
             then List.zipWith (fun w dw => w + dw) f.weights
                (dwList (f.mu / (f.eps + dotSpec input input))
                  (target - dotSpec f.weights input) input)
             else f.weights, f.mu, f.eps⟩,
            dotSpec f.weights input,
            noveltySpec (target - dotSpec f.weights input)
              (dwList (f.mu / (f.eps + dotSpec input input))
                (target - dotSpec f.weights input) input)) := by
  unfold NLMF.adapt
  rw [if_neg (by simp [hi])]
  simp only [NLMF.stepSize, simdDot_eq_dotSpec f.weights input hw hi,
    simdDot_eq_dotSpec input input hi hi, noveltyFold_eq_noveltySpec, hi,
    Nat.sub_self, List.replicate_zero, List.append_nil]
  split <;> rfl

/-- C5 witness: the gate characterization applied to a concrete filter and
window; on the all-zero window with threshold 1 the novelty is 0, so the
(vacuous) update is applied and the state is returned unchanged. -/
theorem adapt_gate_spec_witness :
    (⟨List.replicate N_TAPS 0, 1, 1⟩ : NLMF).adapt (List.replicate N_TAPS 0) 0 1
      = some (⟨List.replicate N_TAPS 0, 1, 1⟩, 0, 0) := by
  have h := adapt_gate_spec ⟨List.replicate N_TAPS 0, 1, 1⟩
    (List.replicate N_TAPS 0) 0 1 (by simp) (by simp)
  rw [h]
  simp [dotSpec_zero_right, dwList_replicate_zero, noveltySpec_replicate_zero]

/-- C3: NLMF::adapt panics (index out of bounds on the dws array of length
N_TAPS = 1024) on every input slice longer than 1024; in particular the
drain loop of AECFiltering::process, which hands the 2048-sample delay-line
window to adapt, panics on its first iteration whenever both input
channels have data and the output channel has room. -/
theorem adapt_overlong_window_panics :
    (∀ (f : NLMF) (input : List ℚ) (target novelty_threshold : ℚ),
        N_TAPS < input.length → f.adapt input target novelty_threshold = none)
    ∧ ∀ (m c : ℚ) (micRest capRest out : List ℚ) (outCap : ℕ) (nf : NLMF)
        (fb : List ℚ) (lp hp : Filter), fb.length = 2048 →
        out.length < outCap →
        drainLoop ⟨m :: micRest, c :: capRest, out, outCap, nf, fb, 2048, lp, hp⟩
          = none := by
  have hadapt : ∀ (f : NLMF) (input : List ℚ) (target novelty_threshold : ℚ),
      N_TAPS < input.length → f.adapt input target novelty_threshold = none := by
    intro f input target novelty_threshold h
    unfold NLMF.adapt
    rw [if_pos h]
  refine ⟨hadapt, ?_⟩
  intro m c micRest capRest out outCap nf fb lp hp hfb hout
  have hlen : (CircularQueue.push 2048 fb c).length = 2048 :=
    push_full_length 2048 fb c hfb (by norm_num)
  have hpanic := hadapt nf (CircularQueue.push 2048 fb c) m (1/400)
    (by rw [hlen]; norm_num [N_TAPS])
  unfold drainLoop
  simp only [hout, if_pos, hpanic]

lemma zipWith_replicate_replicate {α β γ : Type} (f : α → β → γ) (n : ℕ)
    (a : α) (b : β) :
    List.zipWith f (List.replicate n a) (List.replicate n b) =
      List.replicate n (f a b) := by
  induction n with
  | zero => rfl
  | succ m ih => simp [List.replicate_succ, ih]

lemma FV.add_fin (a b : ℚ) : FV.add (FV.fin a) (FV.fin b) = FV.fin (a + b) := rfl

lemma FV.add_fin_nan (a : ℚ) : FV.add (FV.fin a) FV.nan = FV.nan := rfl

lemma FV.add_nan_left (y : FV) : FV.add FV.nan y = FV.nan := rfl

lemma FV.mul_fin (a b : ℚ) : FV.mul (FV.fin a) (FV.fin b) = FV.fin (a * b) := rfl

lemma FV.mul_fin_nan (a : ℚ) : FV.mul (FV.fin a) FV.nan = FV.nan := rfl

lemma FV.mul_nan_left (y : FV) : FV.mul FV.nan y = FV.nan := rfl

lemma FV.sub_fin (a b : ℚ) : FV.sub (FV.fin a) (FV.fin b) = FV.fin (a - b) := rfl

lemma FV.sub_fin_nan (a : ℚ) : FV.sub (FV.fin a) FV.nan = FV.nan := rfl

lemma FV.abs_fin (a : ℚ) : FV.abs (FV.fin a) = FV.fin |a| := rfl

lemma FV.abs_nan_eq : FV.abs FV.nan = FV.nan := rfl

lemma FV.lt_fin (a b : ℚ) : FV.lt (FV.fin a) (FV.fin b) = decide (a < b) := rfl

lemma FV.lt_fin_nan (a : ℚ) : FV.lt (FV.fin a) FV.nan = false := rfl

lemma FV.div_fin (a b : ℚ) :
    FV.div (FV.fin a) (FV.fin b) = if b = 0 then FV.nan else FV.fin (a / b) := rfl

lemma FV.isNaN_fin (a : ℚ) : (FV.fin a).isNaN = false := rfl

lemma foldl_addF_fin (k : ℕ) : ∀ x : ℚ,
    List.foldl FV.add (FV.fin x) (List.replicate k (FV.fin 0)) = FV.fin x := by
  induction k with
  | zero => intro x; rfl
  | succ m ih =>
    intro x
    rw [List.replicate_succ, List.foldl_cons, FV.add_fin, add_zero]
    exact ih x

lemma foldl_addF_nan (k : ℕ) :
    List.foldl FV.add FV.nan (List.replicate k (FV.fin 0)) = FV.nan := by
  induction k with
  | zero => rfl
  | succ m ih =>
    rw [List.replicate_succ, List.foldl_cons, FV.add_nan_left]
    exact ih

lemma foldl_nov_nan (err : FV) (k : ℕ) (a : ℚ) :
    List.foldl (fun acc dw => if FV.lt acc (FV.abs (FV.mul dw err))
      then FV.abs (FV.mul dw err) else acc) (FV.fin a)
      (List.replicate k FV.nan) = FV.fin a := by
  induction k with
  | zero => rfl
  | succ m ih =>
    rw [List.replicate_succ, List.foldl_cons]
    have hstep : FV.lt (FV.fin a) (FV.abs (FV.mul FV.nan err)) = false := by
      rw [FV.mul_nan_left, FV.abs_nan_eq, FV.lt_fin_nan]
    rw [hstep]
    simp only [Bool.false_eq_true, if_false]
    exact ih

lemma foldl_nov_zero (k : ℕ) :
    List.foldl (fun acc dw => if FV.lt acc (FV.abs (FV.mul dw (FV.fin 0)))
      then FV.abs (FV.mul dw (FV.fin 0)) else acc) (FV.fin 0)
      (List.replicate k (FV.fin 0)) = FV.fin 0 := by
  induction k with
  | zero => rfl
  | succ m ih =>
    rw [List.replicate_succ, List.foldl_cons]
    have hstep : FV.lt (FV.fin 0) (FV.abs (FV.mul (FV.fin 0) (FV.fin 0))) = false := by
      rw [FV.mul_fin, mul_zero, FV.abs_fin, abs_zero, FV.lt_fin]
      simp
    rw [hstep]
    simp only [Bool.false_eq_true, if_false]
    exact ih

lemma all_not_nan_replicate_fin (k : ℕ) (a : ℚ) :
    (List.replicate k (FV.fin a)).all (fun w => !w.isNaN) = true := by
  induction k with
  | zero => rfl
  | succ m ih => simp [List.replicate_succ, FV.isNaN_fin, ih]

lemma upmixGo_length (n : ℕ) : ∀ (flag : Bool) (last : ℚ) (q : List ℚ)
    (fell : Bool), (upmixGo n flag last q fell).1.length = n := by
  induction n with
  | zero => intro flag last q fell; rfl
  | succ m ih =>
    intro flag last q fell
    cases flag with
    | false =>
      cases q with
      | nil => simp [upmixGo, ih]
      | cons s q2 => simp [upmixGo, ih]
    | true => simp [upmixGo, ih]

lemma upmixGo_cons_cons (n : ℕ) (last s : ℚ) (q : List ℚ) (fell : Bool) :
    upmixGo (n + 2) false last (s :: q) fell =
      (s :: s :: (upmixGo n false s q fell).1, (upmixGo n false s q fell).2) :=
  rfl

lemma upmixGo_nil_two (n : ℕ) (last : ℚ) (fell : Bool) :
    upmixGo (n + 2) false last [] fell =
      (0 :: last :: (upmixGo n false last [] true).1,
       (upmixGo n false last [] true).2) :=
  rfl

lemma upmixGo_success (j : ℕ) : ∀ (n : ℕ) (q : List ℚ) (last : ℚ) (fell : Bool)
    (x : ℚ), 2 * j + 1 < n → q[j]? = some x →
    ((upmixGo n false last q fell).1)[2 * j]? = some x
    ∧ ((upmixGo n false last q fell).1)[2 * j + 1]? = some x := by
  induction j with
  | zero =>
    intro n q last fell x hn hq
    cases q with
    | nil => simp at hq
    | cons s q2 =>
      obtain ⟨m, rfl⟩ : ∃ m, n = m + 2 := ⟨n - 2, by omega⟩
      rw [List.getElem?_cons_zero] at hq
      have hs : s = x := by injection hq
      subst hs
      rw [upmixGo_cons_cons]
      constructor <;> simp
  | succ i ih =>
    intro n q last fell x hn hq
    cases q with
    | nil => simp at hq
    | cons s q2 =>
      obtain ⟨m, rfl⟩ : ∃ m, n = m + 2 := ⟨n - 2, by omega⟩
      rw [List.getElem?_cons_succ] at hq
      rw [upmixGo_cons_cons]
      have h1 : 2 * (i + 1) = 2 * i + 1 + 1 := by ring
      have h2 : 2 * (i + 1) + 1 = 2 * i + 1 + 1 + 1 := by ring
      constructor
      · rw [h1, List.getElem?_cons_succ, List.getElem?_cons_succ]
        exact (ih m q2 s fell x (by omega) hq).1
      · rw [h2, List.getElem?_cons_succ, List.getElem?_cons_succ]
        exact (ih m q2 s fell x (by omega) hq).2

lemma upmixGo_failure (j : ℕ) : ∀ (n : ℕ) (q : List ℚ) (last : ℚ) (fell : Bool),
    q.length ≤ j → 2 * j < n →
    ((upmixGo n false last q fell).1)[2 * j]? = some 0 := by
  induction j with
  | zero =>
    intro n q last fell hq hn
    have hnil : q = [] := List.eq_nil_of_length_eq_zero (by omega)
    subst hnil
    obtain ⟨m, rfl⟩ : ∃ m, n = m + 1 := ⟨n - 1, by omega⟩
    simp [upmixGo]
  | succ i ih =>
    intro n q last fell hq hn
    obtain ⟨m, rfl⟩ : ∃ m, n = m + 2 := ⟨n - 2, by omega⟩
    have h1 : 2 * (i + 1) = 2 * i + 1 + 1 := by ring
    cases q with
    | nil =>
      rw [upmixGo_nil_two, h1, List.getElem?_cons_succ, List.getElem?_cons_succ]
      exact ih m [] last true (by simp) (by omega)
    | cons s q2 =>
      rw [upmixGo_cons_cons, h1, List.getElem?_cons_succ, List.getElem?_cons_succ]
      exact ih m q2 s fell (by simpa using hq) (by omega)

lemma upmixGo_flag (n : ℕ) : ∀ (flag : Bool) (last : ℚ) (q : List ℚ)
    (fell : Bool), (upmixGo n flag last q fell).2.2 =
      (fell || decide (q.length < if flag then n / 2 else (n + 1) / 2)) := by
  induction n with
  | zero =>
    intro flag last q fell
    cases flag <;> simp [upmixGo]
  | succ m ih =>
    intro flag last q fell
    cases flag with
    | true =>
      simp only [upmixGo, ih, if_true, if_false]
      congr 1
    | false =>
      cases q with
      | nil =>
        simp only [upmixGo, ih, Bool.true_or, List.length_nil]
        have hd : (0 : ℕ) < (m + 1 + 1) / 2 := by omega
        simp [hd]
      | cons s q2 =>
        simp only [upmixGo, ih, List.length_cons, Bool.false_eq_true, if_false,
          eq_self_iff_true, if_true]
        congr 1
        rw [decide_eq_decide]
        omega

/-- C4: the upmix callback fills every slot of the output block; for each
pair whose pop succeeds, the popped sample is written to both the left and
right slot of the pair; a slot whose pop fails because the channel is
empty is filled with silence (0.0); whenever any pop fails, the underrun
condition is reported; processing always continues through all n slots. -/
theorem upmix_callback_spec (n : ℕ) (q : List ℚ) :
    (Mono2StereoOutput.callback n q).1.length = n
    ∧ (∀ j x, 2 * j + 1 < n → q[j]? = some x →
        ((Mono2StereoOutput.callback n q).1)[2 * j]? = some x
        ∧ ((Mono2StereoOutput.callback n q).1)[2 * j + 1]? = some x)
    ∧ (∀ j, q.length ≤ j → 2 * j < n →
        ((Mono2StereoOutput.callback n q).1)[2 * j]? = some 0)
    ∧ (q.length < (n + 1) / 2 → (Mono2StereoOutput.callback n q).2.2 = true) := by
  refine ⟨upmixGo_length n false 0 q false, ?_, ?_, ?_⟩
  · intro j x hn hq
    exact upmixGo_success j n q 0 false x hn hq
  · intro j hq hn
    exact upmixGo_failure j n q 0 false hq hn
  · intro h
    rw [Mono2StereoOutput.callback, upmixGo_flag n false 0 q false]
    simp only [if_false, Bool.false_or, decide_eq_true_eq]
    exact h

/-- C4 witness: with channel content [7] and a 4-slot block, the first pair
gets 7 in both slots, the second pop fails and its slot gets silence, and
the underrun is reported.  (The partner slot of the failed pop repeats the
stale sample 7, which the claim leaves unspecified.) -/
theorem upmix_callback_spec_witness :
    ((Mono2StereoOutput.callback 4 [7]).1)[0]? = some 7
    ∧ ((Mono2StereoOutput.callback 4 [7]).1)[1]? = some 7
    ∧ ((Mono2StereoOutput.callback 4 [7]).1)[2]? = some 0
    ∧ (Mono2StereoOutput.callback 4 [7]).2.2 = true := by
  obtain ⟨-, h2, h3, h4⟩ := upmix_callback_spec 4 [7]
  exact ⟨(h2 0 7 (by norm_num) rfl).1, (h2 0 7 (by norm_num) rfl).2,
         h3 1 (by norm_num) (by norm_num), h4 (by norm_num)⟩

/-- C3 witness: a concrete overlong window and a concrete primed engine
state both hit the panic. -/
theorem adapt_overlong_window_panics_witness :
    (⟨List.replicate N_TAPS 0, 1, 1⟩ : NLMF).adapt (List.replicate 1025 0) 0 0
      = none
    ∧ drainLoop ⟨[0], [0], [], 1, ⟨List.replicate N_TAPS 0, 1, 1⟩,
        List.replicate 2048 0, 2048, Filter.new (0, 0, 0, 0, 0),
        Filter.new (0, 0, 0, 0, 0)⟩ = none :=
  ⟨adapt_overlong_window_panics.1 _ _ _ _ (by norm_num [N_TAPS]),
   adapt_overlong_window_panics.2 0 0 [] [] [] 1 ⟨List.replicate N_TAPS 0, 1, 1⟩
     (List.replicate 2048 0) (Filter.new (0, 0, 0, 0, 0))
     (Filter.new (0, 0, 0, 0, 0)) (by rw [List.length_replicate]) (by norm_num)⟩

lemma simdDotF_nan_head :
    Fp.simdDot (FV.nan :: List.replicate 1023 (FV.fin 0))
      (FV.fin 0 :: List.replicate 1023 (FV.fin 0)) = FV.nan := by
  unfold Fp.simdDot
  rw [List.zipWith_cons_cons, FV.mul_nan_left, zipWith_replicate_replicate]
  simp only [FV.mul_fin, mul_zero]
  rw [List.take_of_length_le (by norm_num [simdLen])]
  rw [List.foldl_cons, FV.add_fin_nan, foldl_addF_nan]

lemma simdDotF_zero_head :
    Fp.simdDot (FV.fin 0 :: List.replicate 1023 (FV.fin 0))
      (FV.fin 0 :: List.replicate 1023 (FV.fin 0)) = FV.fin 0 := by
  unfold Fp.simdDot
  rw [List.zipWith_cons_cons, zipWith_replicate_replicate]
  simp only [FV.mul_fin, mul_zero]
  rw [List.take_of_length_le (by norm_num [simdLen])]
  rw [List.foldl_cons, FV.add_fin, add_zero, foldl_addF_fin]

lemma simdDotF_zero_replicate :
    Fp.simdDot (List.replicate N_TAPS (FV.fin 0))
      (List.replicate N_TAPS (FV.fin 0)) = FV.fin 0 := by
  unfold Fp.simdDot
  rw [zipWith_replicate_replicate]
  simp only [FV.mul_fin, mul_zero, List.take_replicate]
  exact foldl_addF_fin _ 0

/-- Evaluation of the NaN-aware adapt on an all-zero window with all-zero
weights and threshold 1: the novelty is 0, the gate passes, the (vacuous)
update is applied, every updated weight passes the NaN assert, and the
call returns normally. -/
lemma adaptF_zero_eval :
    Fp.NLMF.adapt ⟨List.replicate N_TAPS (FV.fin 0), FV.fin 1, FV.fin 1⟩
      (List.replicate N_TAPS (FV.fin 0)) (FV.fin 0) (FV.fin 1) =
    some (⟨List.replicate N_TAPS (FV.fin 0), FV.fin 1, FV.fin 1⟩,
          FV.fin 0, FV.fin 0) := by
  simp [Fp.NLMF.adapt, simdDotF_zero_replicate, FV.sub_fin, FV.add_fin,
    FV.div_fin, FV.mul_fin, FV.lt_fin, FV.isNaN_fin, zipWith_replicate_replicate,
    foldl_nov_zero, all_not_nan_replicate_fin]

/-- C8 (amended): whenever NLMF::adapt returns normally with
novelty < novelty_threshold (so the weight update was applied), no weight
in the filter is NaN: an applied update that would leave a NaN weight
aborts (the assert) instead of returning. -/
theorem adapt_applied_no_nan (f : Fp.NLMF) (input : List FV)
    (target novelty_threshold : FV) (f2 : Fp.NLMF) (out nov : FV)
    (h : f.adapt input target novelty_threshold = some (f2, out, nov))
    (happ : FV.lt nov novelty_threshold = true) :
    ∀ w ∈ f2.weights, w.isNaN = false := by
  intro w hw
  simp only [Fp.NLMF.adapt] at h
  split at h
  · exact absurd h (by simp)
  · split at h
    · split at h
      · rename_i hall
        rw [Option.some.injEq, Prod.mk.injEq, Prod.mk.injEq] at h
        obtain ⟨hA, -, -⟩ := h
        rw [← hA] at hw
        have := List.all_eq_true.mp hall w hw
        simpa using this
      · exact absurd h (by simp)
    · rename_i hgate
      rw [Option.some.injEq, Prod.mk.injEq, Prod.mk.injEq] at h
      obtain ⟨-, -, hC⟩ := h
      rw [← hC] at happ
      exact absurd happ hgate

/-- C8 witness: the amended theorem applied to a concrete adaptation that
applies its update, instantiated at the first updated weight. -/
theorem adapt_applied_no_nan_witness : (FV.fin 0).isNaN = false :=
  adapt_applied_no_nan ⟨List.replicate N_TAPS (FV.fin 0), FV.fin 1, FV.fin 1⟩
    (List.replicate N_TAPS (FV.fin 0)) (FV.fin 0) (FV.fin 1)
    ⟨List.replicate N_TAPS (FV.fin 0), FV.fin 1, FV.fin 1⟩ (FV.fin 0) (FV.fin 0)
    adaptF_zero_eval (by rw [FV.lt_fin]; norm_num)
    (FV.fin 0) (by rw [List.mem_replicate]; exact ⟨by norm_num [N_TAPS], rfl⟩)

/-- C8 counterexample to the claim as stated: with a NaN already among the
weights, an all-zero window, and threshold 0, the novelty comparison fails
(0 < 0 is false), the update is skipped, no NaN check runs, and adapt
returns normally while the weight vector still holds NaN. -/
theorem adapt_nan_weight_survives :
    Fp.NLMF.adapt ⟨FV.nan :: List.replicate 1023 (FV.fin 0), FV.fin 1, FV.fin 1⟩
        (FV.fin 0 :: List.replicate 1023 (FV.fin 0)) (FV.fin 0) (FV.fin 0) =
      some (⟨FV.nan :: List.replicate 1023 (FV.fin 0), FV.fin 1, FV.fin 1⟩,
            FV.nan, FV.fin 0)
    ∧ FV.nan ∈ (FV.nan :: List.replicate 1023 (FV.fin 0))
    ∧ FV.nan.isNaN = true := by
  refine ⟨?_, List.mem_cons_self _ _, rfl⟩
  have hpad : RAEC.N_TAPS - (FV.fin 0 :: List.replicate 1023 (FV.fin 0)).length = 0 := by
    simp [N_TAPS]
  have hcond : ¬ (RAEC.N_TAPS < (FV.fin 0 :: List.replicate 1023 (FV.fin 0)).length) := by
    simp [N_TAPS]
  simp only [Fp.NLMF.adapt]
  rw [if_neg hcond]
  simp only [simdDotF_nan_head, simdDotF_zero_head, hpad, FV.sub_fin_nan,
    FV.add_fin, FV.div_fin, FV.mul_fin_nan, FV.mul_nan_left, FV.lt_fin,
    FV.lt_fin_nan, FV.abs_nan_eq, List.replicate_zero, List.append_nil,
    List.map_cons, List.map_replicate]
  have hdiv : (if (1 : ℚ) + 0 = 0 then FV.nan else FV.fin (1 / (1 + 0))) =
      FV.fin 1 := by
    norm_num
  have hlt0 : FV.lt (FV.fin 0) (FV.fin 0) = false := by
    rw [FV.lt_fin]; norm_num
  simp only [hdiv, FV.mul_fin_nan, FV.mul_nan_left, List.foldl_cons,
    FV.abs_nan_eq, FV.lt_fin_nan, Bool.false_eq_true, if_false,
    foldl_nov_nan, hlt0]

end RAEC
